import Mathlib

/-!
# Formal model of the flow-log tagging pipeline

A shallow embedding of `src/flow_log_process.py` (the dict/list based
implementation used by `main.py`): lookup-table loading, chunked log
processing, tagging, and the two frequency aggregations.  File I/O is
abstracted away: a lookup file is a list of CSV rows (each a triple of
strings) and a log file is a list of raw lines (strings).  Python
exceptions (`TypeError`, `ValueError`) are modelled with `Except Unit`.
-/

/-- Python `str.lower` on one character.  The protocol tokens handled by the
pipeline are ASCII, so the ASCII case mapping (codes 65-90 shift by 32)
models `str.lower` faithfully on every reachable input. -/
def charLower (c : Char) : Char :=
  if 65 ≤ c.toNat ∧ c.toNat ≤ 90 then Char.ofNat (c.toNat + 32) else c

/-- Python `str.lower` on a string (ASCII case mapping character-wise). -/
def pyLower (s : String) : String := String.mk (s.toList.map charLower)

/-- ASCII decimal digit test (codes 48-57), used by the model of `int()`. -/
def isDigitC (c : Char) : Bool := 48 ≤ c.toNat && c.toNat ≤ 57

/-- Value of a nonempty ASCII digit string, most significant digit first. -/
def digitsVal (cs : List Char) : Nat :=
  cs.foldl (fun n c => n * 10 + (c.toNat - 48)) 0

/-- Character-level core of the model of Python `int(s)`: an optional sign
followed by a nonempty run of decimal digits parses; anything else raises
`ValueError`, modelled as `none`. -/
def parseIntChars : List Char → Option Int
  | [] => none
  | c :: rest =>
    if c = '-' then
      if rest ≠ [] ∧ rest.all isDigitC then some (-(digitsVal rest : Int)) else none
    else if c = '+' then
      if rest ≠ [] ∧ rest.all isDigitC then some ((digitsVal rest : Int)) else none
    else
      if (c :: rest).all isDigitC then some ((digitsVal (c :: rest) : Int)) else none

/-- Model of Python `int(s)` on a string. -/
def parseIntPy (s : String) : Option Int := parseIntChars s.toList

/-- First-match association lookup, the model of a Python `dict` read
(`d[k]`, `k in d`, `d.get(k)`); dict keys are unique so first match is the
match. -/
def findKey {α β : Type} [DecidableEq α] : List (α × β) → α → Option β
  | [], _ => none
  | (a, b) :: rest, k => if a = k then some b else findKey rest k

/-- `protocol_mapping = {6: 'tcp', 17: 'udp', 1: 'icmp'}` from the source. -/
def protocol_mapping : List (Int × String) := [(6, "tcp"), (17, "udp"), (1, "icmp")]

/-- The lookup table: a Python dict from `"dstport_protocol"` keys to lists
of tags, in key insertion order. -/
abbrev LookupTable := List (String × List String)

/-- One pass of the row loop of `load_lookup_table`.  A fresh key is
inserted with a one-element tag list.  On a repeated key the source runs
`set(lookup_table[key].append(row[2]))`: `list.append` returns `None` and
`set(None)` raises `TypeError`, which the `except` clause re-raises, so the
whole load fails. -/
def load_lookup_rows : List (String × String × String) → LookupTable → Except Unit LookupTable
  | [], acc => .ok acc
  | (p, proto, tag) :: rest, acc =>
    match findKey acc (p ++ "_" ++ proto) with
    | some _ => .error ()
    | none => load_lookup_rows rest (acc ++ [(p ++ "_" ++ proto, [tag])])

/-- `load_lookup_table`: builds the dict row by row.  The key is
`str(row[0]) + "_" + row[1]` — note the protocol component is NOT
lowercased here. -/
def load_lookup_table (rows : List (String × String × String)) : Except Unit LookupTable :=
  load_lookup_rows rows []

/-- One parsed flow-log line: the dict built in `process_logs_in_chunks`
from the fixed 14-name column schema, every field the raw token except
`protocol` (see `buildFlowLog`). -/
structure FlowLog where
  version : String
  account_id : String
  interface_id : String
  srcaddr : String
  dstaddr : String
  dstport : String
  srcport : String
  protocol : String
  packets : String
  bytes : String
  start : String
  end_ : String
  action : String
  log_status : String
  deriving DecidableEq, Repr

/-- The dict comprehension of `process_logs_in_chunks` on a 14-token row:
each named field gets `row[i]`, except `protocol` (index 7) which gets
`protocol_mapping[int(row[7])]` when `int(row[7])` parses and is a mapped
code, `row[7]` unchanged when it parses to an unmapped code, and raises
`ValueError` (modelled `.error`) when `int(row[7])` does not parse. -/
def buildFlowLog (row : List String) : Except Unit FlowLog :=
  match parseIntPy (row.getD 7 "") with
  | none => .error ()
  | some n =>
    .ok { version := row.getD 0 "", account_id := row.getD 1 "",
          interface_id := row.getD 2 "", srcaddr := row.getD 3 "",
          dstaddr := row.getD 4 "", dstport := row.getD 5 "",
          srcport := row.getD 6 "",
          protocol := (findKey protocol_mapping n).getD (row.getD 7 ""),
          packets := row.getD 8 "", bytes := row.getD 9 "",
          start := row.getD 10 "", end_ := row.getD 11 "",
          action := row.getD 12 "", log_status := row.getD 13 "" }

/-- The lookup key `f"{log['dstport']}_{log['protocol']}"` computed in
`tag_flow_logs` after `log['protocol'] = str(log['protocol']).lower()`. -/
def tagKey (fl : FlowLog) : String := fl.dstport ++ "_" ++ pyLower fl.protocol

/-- A tagged flow log: the record dict after `tag_flow_logs` set its
`tag` key (named `tags` here since it holds a list of tags). -/
structure TaggedLog extends FlowLog where
  tags : List String
  deriving DecidableEq, Repr

/-- The body of the per-record loop of `tag_flow_logs`: lowercase the
stored protocol in place, look the combined key up, attach the stored tag
list on a hit and `['Untagged']` on a miss. -/
def tagOne (table : LookupTable) (fl : FlowLog) : TaggedLog :=
  { toFlowLog := { fl with protocol := pyLower fl.protocol },
    tags := (findKey table (tagKey fl)).getD ["Untagged"] }

/-- `tag_flow_logs`: the per-record loop over the chunk. -/
def tag_flow_logs (flow_logs : List FlowLog) (table : LookupTable) : List TaggedLog :=
  flow_logs.map (tagOne table)

/-- One step of a Python `Counter` built from an iterable: increment an
existing key in place, else append the key with count 1 (dicts keep
first-seen insertion order). -/
def counterAdd {α : Type} [DecidableEq α] : List (α × Nat) → α → List (α × Nat)
  | [], x => [(x, 1)]
  | (a, n) :: rest, x =>
    if a = x then (a, n + 1) :: rest else (a, n) :: counterAdd rest x

/-- `Counter(iterable)` with `.items()` order: counts in first-seen key
order. -/
def counterOf {α : Type} [DecidableEq α] (l : List α) : List (α × Nat) :=
  l.foldl counterAdd []

/-- `count_tags`: flatten every record's tag list into one stream (the
inner `for tag in log['tag']` loop), count with `Counter`, and emit the
`(Tag, Count)` rows in `Counter.items()` order. -/
def count_tags (tagged_logs : List TaggedLog) : List (String × Nat) :=
  counterOf (tagged_logs.flatMap (fun log => log.tags))

/-- The key of one record in `count_port_protocol_combinations`:
`(str(log['dstport']), protocol_map.get(log['protocol'], str(log['protocol'])).lower())`.
`protocol_map` has the integer keys 6, 1, 17 while the stored protocol is a
string, so `.get` always returns the default `str(log['protocol'])`, and
the key is the dstport with the lowercased protocol. -/
def ppPair (log : TaggedLog) : String × String :=
  (log.dstport, pyLower log.protocol)

/-- `count_port_protocol_combinations` (its counting part; the CSV write is
I/O): count records per `(dstport, protocol)` key and emit
`(dstport, protocol, count)` rows in `Counter.items()` order. -/
def count_port_protocol_combinations (tagged_logs : List TaggedLog) : List (String × String × Nat) :=
  (counterOf (tagged_logs.map ppPair)).map (fun x => (x.1.1, x.1.2, x.2))

/-- Split a character list at every single space, keeping empty pieces —
what `csv.reader(file, delimiter=' ')` yields for one unquoted line.  The
first argument accumulates the current token in reverse. -/
def splitSpaces (cur : List Char) : List Char → List String
  | [] => [String.mk cur.reverse]
  | c :: rest =>
    if c = ' ' then String.mk cur.reverse :: splitSpaces [] rest
    else splitSpaces (c :: cur) rest

/-- `csv.reader(file, delimiter=' ')` on one line followed by
`[value for value in row if value]`: split on single spaces, drop empty
tokens. -/
def tokenizeLine (line : String) : List String :=
  (splitSpaces [] line.toList).filter (fun t => t ≠ "")

/-- The row loop of `process_logs_in_chunks`: tokenize each line, build a
record from every line with exactly 14 tokens (other lines fall through
silently), flush the current chunk through `tag_flow_logs` whenever it
reaches `chunk_size`, and flush the remainder at end of file.  A
`ValueError` from `int()` on a 14-token line aborts the whole run. -/
def processGo (table : LookupTable) (chunk_size : Nat) :
    List String → List FlowLog → List TaggedLog → Except Unit (List TaggedLog)
  | [], current, acc =>
    if current = [] then .ok acc else .ok (acc ++ tag_flow_logs current table)
  | l :: rest, current, acc =>
    let row := tokenizeLine l
    let step : Except Unit (List FlowLog) :=
      if row.length = 14 then
        (buildFlowLog row).map (fun fl => current ++ [fl])
      else .ok current
    match step with
    | .error e => .error e
    | .ok current2 =>
      if chunk_size ≤ current2.length then
        processGo table chunk_size rest [] (acc ++ tag_flow_logs current2 table)
      else
        processGo table chunk_size rest current2 acc

/-- `process_logs_in_chunks`, with the (hard-coded 100000) chunk size
exposed as a parameter so chunk-size independence can be stated. -/
def process_logs_in_chunks (lines : List String) (table : LookupTable)
    (chunk_size : Nat) : Except Unit (List TaggedLog) :=
  processGo table chunk_size lines [] []

/-- Chunk-free record extraction: the records of exactly the 14-token
lines, in file order, with the same `ValueError` behaviour.  Reference
point for the structure of `process_logs_in_chunks`. -/
def parse_all : List String → Except Unit (List FlowLog)
  | [] => .ok []
  | l :: rest =>
    if (tokenizeLine l).length = 14 then
      match buildFlowLog (tokenizeLine l) with
      | .error e => .error e
      | .ok fl =>
        match parse_all rest with
        | .error e => .error e
        | .ok fls => .ok (fl :: fls)
    else parse_all rest

/-- The list of distinct elements of `l` in order of first occurrence —
the reference order against which the emitted row order is compared. -/
def firstSeen {α : Type} [DecidableEq α] (l : List α) : List α :=
  l.foldl (fun acc x => if x ∈ acc then acc else acc ++ [x]) []

/-- The reference protocol normalizer, stated from the spec's words: the
mapped name when the token is the integer 6, 17 or 1, otherwise the
token's string form lowercased. -/
def normalize_protocol (t : String) : String :=
  match parseIntPy t with
  | some n =>
    match findKey protocol_mapping n with
    | some name => name
    | none => pyLower t
  | none => pyLower t

/-! ## Generic lemmas about the `Counter` model -/

theorem counterAdd_snd_sum {α : Type} [DecidableEq α] (c : List (α × Nat)) (x : α) :
    ((counterAdd c x).map Prod.snd).sum = (c.map Prod.snd).sum + 1 := by
  induction c with
  | nil => simp [counterAdd]
  | cons hd tl ih =>
    rcases hd with ⟨a, n⟩
    by_cases h : a = x
    · simp [counterAdd, h]
      omega
    · simp [counterAdd, h, ih]
      omega

theorem foldl_counterAdd_snd_sum {α : Type} [DecidableEq α] :
    ∀ (l : List α) (c : List (α × Nat)),
    ((l.foldl counterAdd c).map Prod.snd).sum = (c.map Prod.snd).sum + l.length := by
  intro l
  induction l with
  | nil => intro c; simp
  | cons x tl ih =>
    intro c
    simp only [List.foldl_cons, List.length_cons]
    rw [ih, counterAdd_snd_sum]
    omega

theorem counterOf_snd_sum {α : Type} [DecidableEq α] (l : List α) :
    ((counterOf l).map Prod.snd).sum = l.length := by
  unfold counterOf
  rw [foldl_counterAdd_snd_sum]
  simp

theorem counterAdd_fst {α : Type} [DecidableEq α] (c : List (α × Nat)) (x : α) :
    (counterAdd c x).map Prod.fst =
      if x ∈ c.map Prod.fst then c.map Prod.fst else c.map Prod.fst ++ [x] := by
  induction c with
  | nil => simp [counterAdd]
  | cons hd tl ih =>
    rcases hd with ⟨a, n⟩
    by_cases h : a = x
    · subst h
      simp [counterAdd]
    · have hne : ¬x = a := fun hx => h hx.symm
      by_cases h2 : x ∈ tl.map Prod.fst
      · simp [counterAdd, h, ih, h2, hne]
      · simp [counterAdd, h, ih, h2, hne]

theorem foldl_counterAdd_fst {α : Type} [DecidableEq α] :
    ∀ (l : List α) (c : List (α × Nat)),
    (l.foldl counterAdd c).map Prod.fst =
      l.foldl (fun acc x => if x ∈ acc then acc else acc ++ [x]) (c.map Prod.fst) := by
  intro l
  induction l with
  | nil => intro c; simp
  | cons x tl ih =>
    intro c
    simp only [List.foldl_cons]
    rw [ih, counterAdd_fst]

theorem counterOf_fst {α : Type} [DecidableEq α] (l : List α) :
    (counterOf l).map Prod.fst = firstSeen l := by
  unfold counterOf firstSeen
  rw [foldl_counterAdd_fst]
  rfl

/-! ## Lemmas about lowercasing and integer parsing -/

theorem charLower_of_digit (c : Char) (h : isDigitC c = true) : charLower c = c := by
  have h' : 48 ≤ c.toNat ∧ c.toNat ≤ 57 := by
    unfold isDigitC at h
    simp only [Bool.and_eq_true, decide_eq_true_eq] at h
    exact h
  unfold charLower
  rw [if_neg (by omega)]

theorem map_charLower_digits (cs : List Char) (h : cs.all isDigitC = true) :
    cs.map charLower = cs := by
  induction cs with
  | nil => rfl
  | cons c tl ih =>
    rw [List.all_cons, Bool.and_eq_true] at h
    simp [charLower_of_digit c h.1, ih h.2]

theorem parseIntChars_map_charLower (cs : List Char) (n : Int)
    (h : parseIntChars cs = some n) : cs.map charLower = cs := by
  cases cs with
  | nil => simp [parseIntChars] at h
  | cons c rest =>
    simp only [parseIntChars] at h
    by_cases hc : c = '-'
    · rw [if_pos hc] at h
      by_cases hcond : rest ≠ [] ∧ rest.all isDigitC
      · subst hc
        have hm : charLower '-' = '-' := by decide
        rw [List.map_cons, map_charLower_digits rest hcond.2, hm]
      · rw [if_neg hcond] at h
        exact absurd h (by simp)
    · rw [if_neg hc] at h
      by_cases hp : c = '+'
      · rw [if_pos hp] at h
        by_cases hcond : rest ≠ [] ∧ rest.all isDigitC
        · subst hp
          have hm : charLower '+' = '+' := by decide
          rw [List.map_cons, map_charLower_digits rest hcond.2, hm]
        · rw [if_neg hcond] at h
          exact absurd h (by simp)
      · rw [if_neg hp] at h
        by_cases hcond : (c :: rest).all isDigitC
        · exact map_charLower_digits _ hcond
        · rw [if_neg hcond] at h
          exact absurd h (by simp)

theorem pyLower_of_parseInt (s : String) (n : Int) (h : parseIntPy s = some n) :
    pyLower s = s := by
  obtain ⟨cs⟩ := s
  exact congrArg String.mk (parseIntChars_map_charLower cs n h)

/-! ## `process_logs_in_chunks` refines chunk-free parsing and tagging -/

theorem processGo_spec (table : LookupTable) (n : Nat) :
    ∀ (lines : List String) (current : List FlowLog) (acc : List TaggedLog),
    processGo table n lines current acc =
      (parse_all lines).map (fun fls => acc ++ tag_flow_logs (current ++ fls) table) := by
  intro lines
  induction lines with
  | nil =>
    intro current acc
    by_cases h : current = []
    · subst h
      simp [processGo, parse_all, tag_flow_logs, Except.map]
    · simp [processGo, parse_all, tag_flow_logs, Except.map, h]
  | cons l rest ih =>
    intro current acc
    by_cases h14 : (tokenizeLine l).length = 14
    · cases hb : buildFlowLog (tokenizeLine l) with
      | error e =>
        cases e
        simp [processGo, parse_all, h14, hb, Except.map]
      | ok fl =>
        cases hr : parse_all rest with
        | error e =>
          cases e
          by_cases hcs : n ≤ (current ++ [fl]).length
          · simp [processGo, parse_all, h14, hb, hr, hcs, ih, Except.map]
          · simp [processGo, parse_all, h14, hb, hr, hcs, ih, Except.map]
        | ok fls =>
          by_cases hcs : n ≤ (current ++ [fl]).length
          · simp [processGo, parse_all, h14, hb, hr, hcs, ih, Except.map,
              tag_flow_logs]
          · simp [processGo, parse_all, h14, hb, hr, hcs, ih, Except.map,
              tag_flow_logs]
    · by_cases hcs : n ≤ current.length
      · cases hr : parse_all rest with
        | error e =>
          cases e
          simp [processGo, parse_all, h14, hcs, ih, hr, Except.map]
        | ok fls =>
          simp [processGo, parse_all, h14, hcs, ih, hr, Except.map, tag_flow_logs]
      · simp [processGo, parse_all, h14, hcs, ih, Except.map]

theorem process_spec (lines : List String) (table : LookupTable) (n : Nat) :
    process_logs_in_chunks lines table n =
      (parse_all lines).map (fun fls => tag_flow_logs fls table) := by
  unfold process_logs_in_chunks
  rw [processGo_spec]
  cases parse_all lines <;> simp [Except.map, tag_flow_logs]

theorem parse_all_ok_of :
    ∀ (lines : List String),
    (∀ l ∈ lines, (tokenizeLine l).length = 14 →
      (parseIntPy ((tokenizeLine l).getD 7 "")).isSome) →
    ∃ fls, parse_all lines = .ok fls ∧
      fls.length = lines.countP (fun l => (tokenizeLine l).length == 14) := by
  intro lines
  induction lines with
  | nil => intro _; exact ⟨[], rfl, rfl⟩
  | cons l rest ih =>
    intro h
    obtain ⟨fls, hfls, hlen⟩ := ih (fun x hx h14 => h x (List.mem_cons_of_mem _ hx) h14)
    by_cases h14 : (tokenizeLine l).length = 14
    · have hp := h l (List.mem_cons_self _ _) h14
      obtain ⟨m, hm⟩ := Option.isSome_iff_exists.mp hp
      have hb : ∃ fl, buildFlowLog (tokenizeLine l) = .ok fl := by
        unfold buildFlowLog
        rw [hm]
        exact ⟨_, rfl⟩
      obtain ⟨fl, hb⟩ := hb
      refine ⟨fl :: fls, ?_, ?_⟩
      · simp [parse_all, h14, hb, hfls]
      · simp [List.countP_cons, h14, hlen]
    · refine ⟨fls, ?_, ?_⟩
      · simp [parse_all, h14, hfls]
      · simp [List.countP_cons, h14, hlen]

theorem parse_all_error_of :
    ∀ (lines : List String) (l : String), l ∈ lines →
    (tokenizeLine l).length = 14 →
    parseIntPy ((tokenizeLine l).getD 7 "") = none →
    parse_all lines = .error () := by
  intro lines
  induction lines with
  | nil => intro l hl _ _; exact absurd hl (List.not_mem_nil l)
  | cons a rest ih =>
    intro l hl h14 hp
    rcases List.mem_cons.mp hl with rfl | hmem
    · have hb : buildFlowLog (tokenizeLine l) = .error () := by
        unfold buildFlowLog
        rw [hp]
      simp [parse_all, h14, hb]
    · have hrest := ih l hmem h14 hp
      by_cases h14a : (tokenizeLine a).length = 14
      · cases hb : buildFlowLog (tokenizeLine a) with
        | error e =>
          cases e
          simp [parse_all, h14a, hb]
        | ok fl => simp [parse_all, h14a, hb, hrest]
      · simp [parse_all, h14a, hrest]

/-! ## Claim theorems -/

/-- C1: the claim says that a lookup file in which the same
(dstport, protocol) key occurs in multiple rows loads successfully and maps
the key to all its tags in first-seen order.  On the claim's own example
(`80,tcp,web`; `22,tcp,ssh`; `80,tcp,http-alt`) the source instead raises:
the duplicate-key branch runs `set(lookup_table[key].append(row[2]))`,
`list.append` returns `None`, and `set(None)` is a `TypeError` which the
`except` clause re-raises, so `load_lookup_table` fails on every file with
a repeated key. -/
theorem c1_duplicate_key_load_raises :
    load_lookup_table [("80", "tcp", "web"), ("22", "tcp", "ssh"), ("80", "tcp", "http-alt")]
      = .error () := rfl

/-- C2: the claim says the protocol component of the lookup key is
lowercased both at load time and at lookup time.  The source lowercases
only at lookup time (`tag_flow_logs`); `load_lookup_table` builds the key
as `str(row[0]) + "_" + row[1]` with the case preserved, despite its own
comment "ensure case insensitivity for protocol matching".  Hence a lookup
row `80,TCP,web` is stored under `"80_TCP"` and a log record with
dstport 80 and protocol 6 (canonical "tcp") looks up `"80_tcp"`, misses,
and is tagged `["Untagged"]` instead of `["web"]`. -/
theorem c2_protocol_case_not_normalized_at_load :
    load_lookup_table [("80", "TCP", "web")] = .ok [("80_TCP", ["web"])] ∧
    Except.map (fun res => res.map TaggedLog.tags)
      (process_logs_in_chunks ["2 a b c d 80 49153 6 25 20000 11 12 ACCEPT OK"]
        [("80_TCP", ["web"])] 100000)
      = .ok [["Untagged"]] :=
  ⟨rfl, rfl⟩

/-- C3: chunking is semantically inert — for every log file, lookup table
and chunk size n ≥ 1, `process_logs_in_chunks` returns exactly the same
result (the same tagged records in the same order, or the same error) as
with the default chunk size 100000. -/
theorem c3_chunk_size_has_no_effect (lines : List String) (table : LookupTable)
    (n : Nat) (_hn : 1 ≤ n) :
    process_logs_in_chunks lines table n = process_logs_in_chunks lines table 100000 := by
  rw [process_spec, process_spec]

theorem c3_chunk_size_has_no_effect_witness :
    1 ≤ 1 ∧
    process_logs_in_chunks
        ["2 a b c d 443 49153 6 25 20000 11 12 ACCEPT OK",
         "2 a b c d 22 49154 6 25 20000 11 12 ACCEPT OK"]
        [("443_tcp", ["web"])] 1
      = process_logs_in_chunks
        ["2 a b c d 443 49153 6 25 20000 11 12 ACCEPT OK",
         "2 a b c d 22 49154 6 25 20000 11 12 ACCEPT OK"]
        [("443_tcp", ["web"])] 100000 :=
  ⟨by decide,
   c3_chunk_size_has_no_effect
     ["2 a b c d 443 49153 6 25 20000 11 12 ACCEPT OK",
      "2 a b c d 22 49154 6 25 20000 11 12 ACCEPT OK"]
     [("443_tcp", ["web"])] 1 (by decide)⟩

/-- C4 counterexample: the claim says a raw line is turned into a record
if and only if it has exactly 14 tokens.  This 14-token line whose
protocol token is the non-numeric string "tcp" is not turned into a
record: `int("tcp")` raises `ValueError` and the whole run aborts. -/
theorem c4_fourteen_token_line_can_abort :
    (tokenizeLine "2 a b c d 443 49153 tcp 25 20000 11 12 ACCEPT OK").length = 14 ∧
    process_logs_in_chunks ["2 a b c d 443 49153 tcp 25 20000 11 12 ACCEPT OK"] [] 100000
      = .error () :=
  ⟨rfl, rfl⟩

/-- C4 amended: provided every 14-token line's protocol token parses as a
decimal integer, the run succeeds and produces exactly one record per
14-token line; lines with any other token count are silently dropped —
no error, not counted, contributing to neither aggregate. -/
theorem c4_only_fourteen_token_lines_become_records (lines : List String)
    (table : LookupTable) (n : Nat)
    (h : ∀ l ∈ lines, (tokenizeLine l).length = 14 →
      (parseIntPy ((tokenizeLine l).getD 7 "")).isSome) :
    ∃ res, process_logs_in_chunks lines table n = .ok res ∧
      res.length = lines.countP (fun l => (tokenizeLine l).length == 14) := by
  obtain ⟨fls, hfls, hlen⟩ := parse_all_ok_of lines h
  refine ⟨tag_flow_logs fls table, ?_, ?_⟩
  · rw [process_spec, hfls]
    rfl
  · simp [tag_flow_logs, hlen]

theorem c4_only_fourteen_token_lines_become_records_witness :
    (∀ l ∈ ["2 a b c d 443 49153 6 25 20000 11 12 ACCEPT OK", "one two three"],
      (tokenizeLine l).length = 14 →
      (parseIntPy ((tokenizeLine l).getD 7 "")).isSome) ∧
    ∃ res,
      process_logs_in_chunks
        ["2 a b c d 443 49153 6 25 20000 11 12 ACCEPT OK", "one two three"] [] 5 = .ok res ∧
      res.length = (["2 a b c d 443 49153 6 25 20000 11 12 ACCEPT OK",
        "one two three"]).countP (fun l => (tokenizeLine l).length == 14) :=
  ⟨by decide,
   c4_only_fourteen_token_lines_become_records
     ["2 a b c d 443 49153 6 25 20000 11 12 ACCEPT OK", "one two three"] [] 5 (by decide)⟩

/-- C5: `tag_flow_logs` transforms each record independently, and each
record gets exactly one tag list: the full stored list when the record's
(dstport, protocol) key is in the table, and exactly `["Untagged"]` when
it is not. -/
theorem c5_exactly_one_tag_list (logs : List FlowLog) (table : LookupTable) :
    tag_flow_logs logs table = logs.map (tagOne table) ∧
    ∀ fl : FlowLog,
      (∃ ts, findKey table (tagKey fl) = some ts ∧ (tagOne table fl).tags = ts) ∨
      (findKey table (tagKey fl) = none ∧ (tagOne table fl).tags = ["Untagged"]) := by
  refine ⟨rfl, fun fl => ?_⟩
  cases h : findKey table (tagKey fl) with
  | none => exact Or.inr ⟨rfl, by simp [tagOne, h]⟩
  | some ts => exact Or.inl ⟨ts, rfl, by simp [tagOne, h]⟩

/-- C6: the counts emitted by `count_tags` sum to the total number of
(record, tag) pairs — the sum over all tagged records of the length of
their tag lists — so a record carrying N tags contributes N units. -/
theorem c6_tag_count_total (tagged_logs : List TaggedLog) :
    ((count_tags tagged_logs).map Prod.snd).sum
      = (tagged_logs.map (fun log => log.tags.length)).sum := by
  unfold count_tags
  rw [counterOf_snd_sum]
  simp [List.flatMap, List.length_flatten, List.map_map, Function.comp_def]

/-- C7: the counts emitted by `count_port_protocol_combinations` sum to
the number of tagged records: each record contributes exactly one unit to
its (dstport, protocol) pair, however many tags it carries. -/
theorem c7_port_protocol_count_total (tagged_logs : List TaggedLog) :
    ((count_port_protocol_combinations tagged_logs).map (fun r => r.2.2)).sum
      = tagged_logs.length := by
  unfold count_port_protocol_combinations
  rw [List.map_map]
  have hcomp : ((fun (r : String × String × Nat) => r.2.2) ∘
      fun (x : (String × String) × Nat) => (x.1.1, x.1.2, x.2)) =
      (Prod.snd : (String × String) × Nat → Nat) := rfl
  rw [hcomp, counterOf_snd_sum, List.length_map]

/-- C8: for every raw line whose tokenization has exactly 14 tokens, the
protocol field of the record built in `process_logs_in_chunks` equals the
reference normalizer on the raw protocol token: the mapped name for the
integer codes 6, 17 and 1, and otherwise the token lowercased — which is
the token unchanged, lowercasing being a no-op on the sign/digit strings
`int()` accepts. -/
theorem c8_protocol_field_normalized (line : String) (fl : FlowLog)
    (_h14 : (tokenizeLine line).length = 14)
    (hb : buildFlowLog (tokenizeLine line) = .ok fl) :
    fl.protocol = normalize_protocol ((tokenizeLine line).getD 7 "") := by
  unfold buildFlowLog at hb
  unfold normalize_protocol
  cases hp : parseIntPy ((tokenizeLine line).getD 7 "") with
  | none =>
    rw [hp] at hb
    exact absurd hb (by simp)
  | some n =>
    rw [hp] at hb
    injection hb with hfl
    subst hfl
    cases hfind : findKey protocol_mapping n with
    | some name => simp [hfind]
    | none =>
      simp only [hfind, Option.getD_none]
      exact (pyLower_of_parseInt _ n hp).symm

theorem c8_protocol_field_normalized_witness :
    (tokenizeLine "2 a b c d 443 49153 6 25 20000 11 12 ACCEPT OK").length = 14 ∧
    buildFlowLog (tokenizeLine "2 a b c d 443 49153 6 25 20000 11 12 ACCEPT OK") = .ok
      { version := "2", account_id := "a", interface_id := "b", srcaddr := "c",
        dstaddr := "d", dstport := "443", srcport := "49153", protocol := "tcp",
        packets := "25", bytes := "20000", start := "11", end_ := "12",
        action := "ACCEPT", log_status := "OK" } ∧
    ({ version := "2", account_id := "a", interface_id := "b", srcaddr := "c",
        dstaddr := "d", dstport := "443", srcport := "49153", protocol := "tcp",
        packets := "25", bytes := "20000", start := "11", end_ := "12",
        action := "ACCEPT", log_status := "OK" } : FlowLog).protocol
      = normalize_protocol
          ((tokenizeLine "2 a b c d 443 49153 6 25 20000 11 12 ACCEPT OK").getD 7 "") :=
  ⟨rfl, rfl,
   c8_protocol_field_normalized "2 a b c d 443 49153 6 25 20000 11 12 ACCEPT OK" _ rfl rfl⟩

/-- C9: both aggregations emit their rows in first-seen insertion order of
the distinct keys: `count_tags` rows follow the order in which each
distinct tag first occurs in the flattened tag stream, and
`count_port_protocol_combinations` rows follow the order in which each
distinct (dstport, protocol) pair first occurs in the record stream. -/
theorem c9_rows_in_first_seen_order (tagged_logs : List TaggedLog) :
    (count_tags tagged_logs).map Prod.fst
        = firstSeen (tagged_logs.flatMap (fun log => log.tags)) ∧
    (count_port_protocol_combinations tagged_logs).map (fun r => (r.1, r.2.1))
        = firstSeen (tagged_logs.map ppPair) := by
  constructor
  · unfold count_tags
    exact counterOf_fst _
  · unfold count_port_protocol_combinations
    rw [List.map_map]
    have hcomp : ((fun (r : String × String × Nat) => (r.1, r.2.1)) ∘
        fun (x : (String × String) × Nat) => (x.1.1, x.1.2, x.2)) =
        (Prod.fst : (String × String) × Nat → String × String) := rfl
    rw [hcomp, counterOf_fst]

/-- C10: record construction in `process_logs_in_chunks` evaluates
`int(...)` on the protocol token of every 14-token line, so a log file
containing a 14-token line whose protocol token is not a decimal integer
literal makes the whole run raise (`ValueError`), rather than the line
being skipped or passed through. -/
theorem c10_nonnumeric_protocol_aborts (lines : List String) (table : LookupTable)
    (n : Nat) (l : String) (hmem : l ∈ lines)
    (h14 : (tokenizeLine l).length = 14)
    (hp : parseIntPy ((tokenizeLine l).getD 7 "") = none) :
    process_logs_in_chunks lines table n = .error () := by
  rw [process_spec, parse_all_error_of lines l hmem h14 hp]
  rfl

theorem c10_nonnumeric_protocol_aborts_witness :
    ("2 a b c d 443 49153 tcp 25 20000 11 12 ACCEPT REJECT"
        ∈ ["2 a b c d 80 49153 6 25 20000 11 12 ACCEPT OK",
           "2 a b c d 443 49153 tcp 25 20000 11 12 ACCEPT REJECT"]) ∧
    (tokenizeLine "2 a b c d 443 49153 tcp 25 20000 11 12 ACCEPT REJECT").length = 14 ∧
    parseIntPy ((tokenizeLine "2 a b c d 443 49153 tcp 25 20000 11 12 ACCEPT REJECT").getD 7 "")
      = none ∧
    process_logs_in_chunks
      ["2 a b c d 80 49153 6 25 20000 11 12 ACCEPT OK",
       "2 a b c d 443 49153 tcp 25 20000 11 12 ACCEPT REJECT"] [] 3 = .error () :=
  ⟨by decide, by decide, by decide,
   c10_nonnumeric_protocol_aborts
     ["2 a b c d 80 49153 6 25 20000 11 12 ACCEPT OK",
      "2 a b c d 443 49153 tcp 25 20000 11 12 ACCEPT REJECT"] [] 3
     "2 a b c d 443 49153 tcp 25 20000 11 12 ACCEPT REJECT"
     (by decide) (by decide) (by decide)⟩
